import Mathlib

/-!
Shallow embedding of the go2rtc-frontend adaptive stream player
(`src/unnamed/part_001` VideoPlayer and `src/unnamed/part_002` StreamPlayer,
whose player logic is line-for-line identical) together with the
Tapo PTZ control panel (`src/unnamed/part_001`, top component).

The player keeps refs `currentMode`, `isLoading`, `isPlaying`, `error`,
`connectionState` and module-level handles `pc` (RTCPeerConnection),
`ws` (WebSocket), `hls` (Hls engine), plus an ad-hoc `img` element for
MJPEG.  Every event handler in the source runs atomically on the JS
event loop; we model each handler (and the synchronous prefix of each
`startX` function) as one atomic step on an explicit state record.
-/

namespace Go2rtcPlayer

/-- The four playback modes of the player (`modes = ['webrtc','mse','hls','mjpeg']`). -/
inductive PlaybackMode
  | webrtc
  | mse
  | hls
  | mjpeg
deriving DecidableEq, Repr

/-- Host-platform facts probed synchronously by `startHLS`:
`Hls.isSupported()` and `video.canPlayType('application/vnd.apple.mpegurl')`. -/
structure HlsEnv where
  hlsLibSupported : Bool
  nativeHlsSupported : Bool
deriving DecidableEq, Repr

/-- Events emitted to collaborators via `emit` in the source:
`playing`, `error(Error)`, `modeChange(mode)`. -/
inductive EmitEvent
  | playing
  | errorEvent (msg : String)
  | modeChange (m : PlaybackMode)
deriving DecidableEq, Repr

/-- Observable teardown / startup actions, used to state the mode-switch
isolation property.  The five teardown actions are the five cleanup blocks
of `stop()` in source order; `startupOf m` marks entry into `startX`. -/
inductive Action
  | pcClose
  | wsClose
  | hlsDestroy
  | clearVideo
  | imgRemove
  | startupOf (m : PlaybackMode)
deriving DecidableEq, Repr

/-- The player's observable state: the reactive refs plus the presence of
the per-mode resource handles.  `mseNegotiated` models whether the current
MSE session's closure variable `sourceBuffer` is non-null. -/
structure PlayerState where
  currentMode : PlaybackMode
  isLoading : Bool
  isPlaying : Bool
  error : Option String
  connectionState : String
  pc : Bool
  ws : Bool
  hls : Bool
  img : Bool
  videoHidden : Bool
  mseNegotiated : Bool
deriving DecidableEq, Repr

/-- Initial refs: `isPlaying = ref(false)`, `isLoading = ref(true)`,
`error = ref(null)`, `connectionState = ref('')`; all handles null. -/
def initState (m : PlaybackMode) : PlayerState :=
  { currentMode := m
    isLoading := true
    isPlaying := false
    error := none
    connectionState := ""
    pc := false
    ws := false
    hls := false
    img := false
    videoHidden := false
    mseNegotiated := false }

/-- The teardown actions performed by `stop()`, in source order: close `pc`
if present, close `ws` if present, destroy `hls` if present, clear the video
element (always, `videoRef` is the template element), remove the MJPEG `img`
if present. -/
def stopActions (s : PlayerState) : List Action :=
  (if s.pc then [Action.pcClose] else []) ++
  (if s.ws then [Action.wsClose] else []) ++
  (if s.hls then [Action.hlsDestroy] else []) ++
  [Action.clearVideo] ++
  (if s.img then [Action.imgRemove] else [])

/-- State effect of `stop()`: null all handles, restore the video element's
display, remove the img, and reset `isPlaying`/`isLoading` to false.
`error` and `currentMode` are untouched. -/
def stopState (s : PlayerState) : PlayerState :=
  { s with
    pc := false
    ws := false
    hls := false
    videoHidden := false
    img := false
    isPlaying := false
    isLoading := false }

/-- Synchronous prefix of the `startX` function selected by `currentMode`:
each sets `isLoading = true`, `error = null` and creates its resource handle.
`startHLS` additionally resolves its three support branches synchronously;
the unsupported branch sets a descriptive error and clears loading. -/
def startSync (env : HlsEnv) (s : PlayerState) : PlayerState :=
  match s.currentMode with
  | PlaybackMode.webrtc =>
      { s with isLoading := true, error := none,
               connectionState := "connecting", pc := true }
  | PlaybackMode.mse =>
      { s with isLoading := true, error := none,
               ws := true, mseNegotiated := false }
  | PlaybackMode.hls =>
      if env.hlsLibSupported then
        { s with isLoading := true, error := none, hls := true }
      else if env.nativeHlsSupported then
        { s with isLoading := true, error := none }
      else
        { s with isLoading := false,
                 error := some "HLS is not supported in this browser" }
  | PlaybackMode.mjpeg =>
      { s with isLoading := true, error := none,
               videoHidden := true, img := true }

/-- The body of `play()`: `stop()` followed by the `switch (currentMode)` dispatch. -/
def playState (env : HlsEnv) (s : PlayerState) : PlayerState :=
  startSync env (stopState s)

/-- Action trace of `play()`: the teardown block of `stop()`, then the
startup of the current mode. -/
def playActions (s : PlayerState) : List Action :=
  stopActions s ++ [Action.startupOf s.currentMode]

/-- The body of `switchMode(mode)`: `currentMode.value = mode; emit('modeChange', mode); play()`. -/
def switchModeState (env : HlsEnv) (m : PlaybackMode) (s : PlayerState) : PlayerState :=
  playState env { s with currentMode := m }

/-- Action trace of `switchMode(mode)`. -/
def switchModeActions (m : PlaybackMode) (s : PlayerState) : List Action :=
  playActions { s with currentMode := m }

/-- Atomic steps of the player: the three public operations plus every
transport callback wired in the source.  Callbacks are allowed in every
state: the source installs them on session objects but nothing prevents a
stale handler or continuation from running later, so this transition system
over-approximates the real interleavings. -/
inductive PEvent
  | play (env : HlsEnv)
  | stopCall
  | switchMode (env : HlsEnv) (m : PlaybackMode)
  | webrtcTrack
  | iceSuccess
  | iceFailure
  | negotiationResolve
  | negotiationCatch (msg : String)
  | mseMime (supported : Bool)
  | mseChunk
  | wsError
  | hlsManifestParsed
  | hlsFatalError (t : String)
  | nativeMetadataLoaded
  | mjpegLoad
  | mjpegError
deriving DecidableEq, Repr

/-- One atomic step: the new state and the events emitted during it,
transcribed from the corresponding handler bodies in the source. -/
def step (s : PlayerState) : PEvent → PlayerState × List EmitEvent
  | PEvent.play env => (playState env s, [])
  | PEvent.stopCall => (stopState s, [])
  | PEvent.switchMode env m =>
      (switchModeState env m s, [EmitEvent.modeChange m])
  | PEvent.webrtcTrack => ({ s with isLoading := false }, [])
  | PEvent.iceSuccess =>
      ({ s with connectionState := "connected",
                isLoading := false, isPlaying := true },
       [EmitEvent.playing])
  | PEvent.iceFailure =>
      ({ s with connectionState := "failed",
                error := some "WebRTC connection failed" }, [])
  | PEvent.negotiationResolve => (s, [])
  | PEvent.negotiationCatch msg =>
      ({ s with error := some msg, isLoading := false },
       [EmitEvent.errorEvent msg])
  | PEvent.mseMime supported =>
      if supported then ({ s with mseNegotiated := true }, []) else (s, [])
  | PEvent.mseChunk =>
      if s.mseNegotiated then
        ({ s with isLoading := false, isPlaying := true }, [])
      else (s, [])
  | PEvent.wsError =>
      ({ s with error := some "MSE connection failed", isLoading := false }, [])
  | PEvent.hlsManifestParsed =>
      ({ s with isLoading := false, isPlaying := true }, [EmitEvent.playing])
  | PEvent.hlsFatalError t =>
      ({ s with error := some ("HLS Error: " ++ t), isLoading := false }, [])
  | PEvent.nativeMetadataLoaded =>
      ({ s with isLoading := false, isPlaying := true }, [])
  | PEvent.mjpegLoad =>
      ({ s with isLoading := false, isPlaying := true }, [EmitEvent.playing])
  | PEvent.mjpegError =>
      ({ s with error := some "Failed to load MJPEG stream",
                isLoading := false }, [])

/-- State after running a sequence of atomic steps. -/
def runState (s : PlayerState) : List PEvent → PlayerState
  | [] => s
  | e :: es => runState (step s e).1 es

/-- Events emitted while running a sequence of atomic steps. -/
def runEmits (s : PlayerState) : List PEvent → List EmitEvent
  | [] => []
  | e :: es => (step s e).2 ++ runEmits (step s e).1 es

/-- The mutual-exclusion invariant of claim C2, as a Boolean. -/
def loadPlayOk (s : PlayerState) : Bool :=
  !(s.isLoading && s.isPlaying)

lemma startSync_isPlaying (env : HlsEnv) (s : PlayerState) :
    (startSync env s).isPlaying = s.isPlaying := by
  unfold startSync
  cases s.currentMode <;> simp only []
  split
  · rfl
  · split <;> rfl

lemma playState_isPlaying (env : HlsEnv) (s : PlayerState) :
    (playState env s).isPlaying = false := by
  unfold playState
  rw [startSync_isPlaying]
  rfl

lemma step_loadPlayOk (s : PlayerState) (e : PEvent)
    (h : loadPlayOk s = true) : loadPlayOk (step s e).1 = true := by
  cases e with
  | play env =>
      simp only [step, loadPlayOk]
      rw [playState_isPlaying]
      simp
  | stopCall =>
      simp [step, loadPlayOk, stopState]
  | switchMode env m =>
      simp only [step, loadPlayOk, switchModeState]
      rw [playState_isPlaying]
      simp
  | webrtcTrack => simp [step, loadPlayOk]
  | iceSuccess => simp [step, loadPlayOk]
  | iceFailure =>
      simp only [loadPlayOk] at h
      simp [step, loadPlayOk, h]
  | negotiationResolve => exact h
  | negotiationCatch msg => simp [step, loadPlayOk]
  | mseMime supported =>
      simp only [loadPlayOk] at h
      cases supported <;> simp [step, loadPlayOk, h]
  | mseChunk =>
      simp only [loadPlayOk] at h
      by_cases hn : s.mseNegotiated <;> simp [step, loadPlayOk, hn, h]
  | wsError => simp [step, loadPlayOk]
  | hlsManifestParsed => simp [step, loadPlayOk]
  | hlsFatalError t => simp [step, loadPlayOk]
  | nativeMetadataLoaded => simp [step, loadPlayOk]
  | mjpegLoad => simp [step, loadPlayOk]
  | mjpegError => simp [step, loadPlayOk]

lemma runState_loadPlayOk (evs : List PEvent) :
    ∀ s : PlayerState, loadPlayOk s = true →
      loadPlayOk (runState s evs) = true := by
  induction evs with
  | nil => intro s h; exact h
  | cons e es ih =>
      intro s h
      exact ih _ (step_loadPlayOk s e h)

/-- C2.  For every reachable state of the player — any initial mode, any
sequence of play/stop/switchMode calls and transport callbacks (including
stale ones) — `isLoading` and `isPlaying` are never both true. -/
theorem loading_playing_never_both (m0 : PlaybackMode) (evs : List PEvent) :
    ((runState (initState m0) evs).isLoading &&
     (runState (initState m0) evs).isPlaying) = false := by
  have h := runState_loadPlayOk evs (initState m0) (by rfl)
  simp only [loadPlayOk, Bool.not_eq_true'] at h
  exact h

/-- C4.  `stop()` is idempotent, leaves `isLoading = isPlaying = false`,
and never modifies the `error` field: a prior error message persists.  The
embedding of `stop()` is a total function on every state (including the
initial one where no session was ever started), which is the shallow form
of "never throws": every cleanup block in the source is null-guarded. -/
theorem stop_idempotent_safe (s : PlayerState) :
    stopState (stopState s) = stopState s ∧
    (stopState s).error = s.error ∧
    (stopState s).isLoading = false ∧
    (stopState s).isPlaying = false ∧
    runState s [PEvent.stopCall, PEvent.stopCall] =
      runState s [PEvent.stopCall] := by
  refine ⟨rfl, rfl, rfl, rfl, ?_⟩
  simp [runState, step]
  rfl

lemma stopActions_ignores_mode (s : PlayerState) (m : PlaybackMode) :
    stopActions { s with currentMode := m } = stopActions s := rfl

lemma stopState_set_mode (s : PlayerState) (m : PlaybackMode) :
    stopState { s with currentMode := m } =
      { stopState s with currentMode := m } := rfl

/-- C3.  `switchMode(B)` from any state: (1) it emits exactly the one event
`modeChange(B)`; (2) its action trace is the teardown block of the old
session followed by the startup of mode B — so every teardown action runs
exactly once (once when the corresponding resource exists, never
otherwise) and the whole teardown precedes B's startup; (3) its resulting
state is exactly that of `stop(); currentMode := B; start()`. -/
theorem switchMode_stop_set_start (s : PlayerState) (env : HlsEnv)
    (m : PlaybackMode) :
    (step s (PEvent.switchMode env m)).2 = [EmitEvent.modeChange m] ∧
    switchModeActions m s = stopActions s ++ [Action.startupOf m] ∧
    (step s (PEvent.switchMode env m)).1 =
      startSync env { stopState s with currentMode := m } ∧
    (stopActions s).count Action.pcClose = (if s.pc then 1 else 0) ∧
    (stopActions s).count Action.wsClose = (if s.ws then 1 else 0) ∧
    (stopActions s).count Action.hlsDestroy = (if s.hls then 1 else 0) ∧
    (stopActions s).count Action.imgRemove = (if s.img then 1 else 0) ∧
    (stopActions s).count Action.clearVideo = 1 ∧
    Action.startupOf m ∉ stopActions s := by
  refine ⟨rfl, ?_, ?_, ?_, ?_, ?_, ?_, ?_, ?_⟩
  · unfold switchModeActions playActions
    rw [stopActions_ignores_mode]
  · show switchModeState env m s = _
    unfold switchModeState playState
    rw [stopState_set_mode]
  · unfold stopActions
    cases hp : s.pc <;> cases hw : s.ws <;> cases hh : s.hls <;>
      cases hi : s.img <;> simp
  · unfold stopActions
    cases hp : s.pc <;> cases hw : s.ws <;> cases hh : s.hls <;>
      cases hi : s.img <;> simp
  · unfold stopActions
    cases hp : s.pc <;> cases hw : s.ws <;> cases hh : s.hls <;>
      cases hi : s.img <;> simp
  · unfold stopActions
    cases hp : s.pc <;> cases hw : s.ws <;> cases hh : s.hls <;>
      cases hi : s.img <;> simp
  · unfold stopActions
    cases hp : s.pc <;> cases hw : s.ws <;> cases hh : s.hls <;>
      cases hi : s.img <;> simp
  · unfold stopActions
    cases hp : s.pc <;> cases hw : s.ws <;> cases hh : s.hls <;>
      cases hi : s.img <;> simp

/-- C5 counterexample.  A buffered-binary (MSE) session that succeeds —
negotiates its source buffer and renders its first chunk, reaching
`isPlaying = true` — emits zero `playing` events: the MSE binary-chunk
handler sets the refs but never calls `emit('playing')`.  And a WebRTC
session whose ICE connection reports `connected` and then `completed`
emits `playing` twice, because the `oniceconnectionstatechange` handler
emits on every success-state transition. -/
theorem playing_once_per_session_cex :
    (runState (initState PlaybackMode.mse)
        [PEvent.play ⟨true, true⟩, PEvent.mseMime true,
         PEvent.mseChunk]).isPlaying = true ∧
    (runEmits (initState PlaybackMode.mse)
        [PEvent.play ⟨true, true⟩, PEvent.mseMime true,
         PEvent.mseChunk]).count EmitEvent.playing = 0 ∧
    (runEmits (initState PlaybackMode.webrtc)
        [PEvent.play ⟨true, true⟩, PEvent.iceSuccess,
         PEvent.iceSuccess]).count EmitEvent.playing = 2 := by
  refine ⟨rfl, rfl, rfl⟩

/-- C5 amended.  Every success callback sets `isLoading = false` and
`isPlaying = true`, but only the WebRTC ICE-success, HLS manifest-parsed
and MJPEG image-load callbacks emit a `playing` event (one per callback
invocation, so a WebRTC session emits once per `connected`/`completed`
transition, possibly more than once per session); the MSE binary-chunk
and native-HLS metadata callbacks emit none, so a successful MSE or
native-HLS session emits zero `playing` events. -/
theorem playing_event_per_success_callback (s : PlayerState) :
    (step s PEvent.iceSuccess).2 = [EmitEvent.playing] ∧
    (step s PEvent.iceSuccess).1.isPlaying = true ∧
    (step s PEvent.iceSuccess).1.isLoading = false ∧
    (step s PEvent.hlsManifestParsed).2 = [EmitEvent.playing] ∧
    (step s PEvent.hlsManifestParsed).1.isPlaying = true ∧
    (step s PEvent.hlsManifestParsed).1.isLoading = false ∧
    (step s PEvent.mjpegLoad).2 = [EmitEvent.playing] ∧
    (step s PEvent.mjpegLoad).1.isPlaying = true ∧
    (step s PEvent.mjpegLoad).1.isLoading = false ∧
    (step s PEvent.nativeMetadataLoaded).2 = [] ∧
    (step s PEvent.nativeMetadataLoaded).1.isPlaying = true ∧
    (step s PEvent.nativeMetadataLoaded).1.isLoading = false ∧
    (step s PEvent.mseChunk).2 = [] ∧
    (step s PEvent.mseChunk).1.isPlaying = (s.mseNegotiated || s.isPlaying) ∧
    (step s PEvent.mseChunk).1.isLoading = (!s.mseNegotiated && s.isLoading) := by
  refine ⟨rfl, rfl, rfl, rfl, rfl, rfl, rfl, rfl, rfl, ?_, rfl, rfl, ?_, ?_, ?_⟩ <;>
    cases hn : s.mseNegotiated <;> simp [step, hn]

/-- C6 counterexample.  In a WebRTC session that is still loading, the
`oniceconnectionstatechange` handler for a `failed`/`disconnected` state
sets `error` but does not clear `isLoading`: the state reaches
`error = some "WebRTC connection failed"` with `isLoading = true`. -/
theorem error_implies_not_loading_cex :
    (runState (initState PlaybackMode.webrtc)
        [PEvent.play ⟨true, true⟩, PEvent.iceFailure]).error =
      some "WebRTC connection failed" ∧
    (runState (initState PlaybackMode.webrtc)
        [PEvent.play ⟨true, true⟩, PEvent.iceFailure]).isLoading = true := by
  refine ⟨rfl, rfl⟩

/-- The invariant of claim C6: a non-null `error` implies `isLoading = false`. -/
def errorLoadingOk (s : PlayerState) : Bool :=
  s.error.isNone || !s.isLoading

lemma startSync_errorLoadingOk (env : HlsEnv) (s : PlayerState) :
    errorLoadingOk (startSync env s) = true := by
  unfold startSync
  cases s.currentMode <;> simp only []
  · simp [errorLoadingOk]
  · simp [errorLoadingOk]
  · split
    · simp [errorLoadingOk]
    · split <;> simp [errorLoadingOk]
  · simp [errorLoadingOk]

lemma step_errorLoadingOk (s : PlayerState) (e : PEvent)
    (hne : e ≠ PEvent.iceFailure)
    (h : errorLoadingOk s = true) : errorLoadingOk (step s e).1 = true := by
  cases e with
  | play env => exact startSync_errorLoadingOk env (stopState s)
  | stopCall =>
      simp only [errorLoadingOk] at h ⊢
      simp only [step, stopState]
      cases he : s.error <;> simp [he]
  | switchMode env m => exact startSync_errorLoadingOk env _
  | webrtcTrack =>
      simp only [errorLoadingOk] at h ⊢
      simp [step]
  | iceSuccess => simp [step, errorLoadingOk]
  | iceFailure => exact absurd rfl hne
  | negotiationResolve => exact h
  | negotiationCatch msg => simp [step, errorLoadingOk]
  | mseMime supported =>
      cases supported <;> simpa [step, errorLoadingOk] using h
  | mseChunk =>
      by_cases hn : s.mseNegotiated
      · simp [step, hn, errorLoadingOk]
      · simpa [step, hn, errorLoadingOk] using h
  | wsError => simp [step, errorLoadingOk]
  | hlsManifestParsed => simp [step, errorLoadingOk]
  | hlsFatalError t => simp [step, errorLoadingOk]
  | nativeMetadataLoaded => simp [step, errorLoadingOk]
  | mjpegLoad => simp [step, errorLoadingOk]
  | mjpegError => simp [step, errorLoadingOk]

/-- C6 amended.  In every reachable state produced without an ICE-failure
callback, `error ≠ none` implies `isLoading = false`: every other
error-setting transition in the player clears `isLoading` in the same
atomic step.  (The ICE-failure handler is the single exception, as the
counterexample shows.) -/
theorem error_implies_not_loading_amended (m0 : PlaybackMode)
    (evs : List PEvent) (hfree : PEvent.iceFailure ∉ evs) :
    errorLoadingOk (runState (initState m0) evs) = true := by
  have main : ∀ (l : List PEvent) (s : PlayerState),
      PEvent.iceFailure ∉ l → errorLoadingOk s = true →
      errorLoadingOk (runState s l) = true := by
    intro l
    induction l with
    | nil => intro s _ h; exact h
    | cons e es ih =>
        intro s hnotin h
        have hne : e ≠ PEvent.iceFailure := by
          intro he; exact hnotin (he ▸ List.mem_cons_self e es)
        have hnotin' : PEvent.iceFailure ∉ es := by
          intro hmem; exact hnotin (List.mem_cons_of_mem e hmem)
        exact ih _ hnotin' (step_errorLoadingOk s e hne h)
  exact main evs (initState m0) hfree (by rfl)

/-- C6 amended, witness: an error set by the negotiation catch block
(e.g. an HTTP 500) does clear `isLoading`. -/
theorem error_implies_not_loading_amended_witness :
    PEvent.iceFailure ∉
      [PEvent.play (⟨true, true⟩ : HlsEnv),
       PEvent.negotiationCatch "HTTP 500: Internal Server Error"] ∧
    errorLoadingOk (runState (initState PlaybackMode.webrtc)
      [PEvent.play (⟨true, true⟩ : HlsEnv),
       PEvent.negotiationCatch "HTTP 500: Internal Server Error"]) = true := by
  refine ⟨by decide, ?_⟩
  exact error_implies_not_loading_amended PlaybackMode.webrtc
    [PEvent.play (⟨true, true⟩ : HlsEnv),
     PEvent.negotiationCatch "HTTP 500: Internal Server Error"] (by decide)

/-- C8 counterexample.  Concrete interleaving: a WebRTC session starts, the
user switches to MSE while the session-1 negotiation fetch is in flight,
session 2 negotiates and starts playing (`error = none`, `isPlaying = true`,
`currentMode = mse`); then session 1's discarded fetch continuation rejects
and its catch block — which contains no liveness check against the current
session — overwrites `error`, clears `isLoading` and emits an `error`
event while the newer session is active. -/
theorem stale_continuation_guard_cex :
    (runState (initState PlaybackMode.webrtc)
        [PEvent.play ⟨true, true⟩,
         PEvent.switchMode ⟨true, true⟩ PlaybackMode.mse,
         PEvent.mseMime true, PEvent.mseChunk]).currentMode =
      PlaybackMode.mse ∧
    (runState (initState PlaybackMode.webrtc)
        [PEvent.play ⟨true, true⟩,
         PEvent.switchMode ⟨true, true⟩ PlaybackMode.mse,
         PEvent.mseMime true, PEvent.mseChunk]).isPlaying = true ∧
    (runState (initState PlaybackMode.webrtc)
        [PEvent.play ⟨true, true⟩,
         PEvent.switchMode ⟨true, true⟩ PlaybackMode.mse,
         PEvent.mseMime true, PEvent.mseChunk]).error = none ∧
    (runState (initState PlaybackMode.webrtc)
        [PEvent.play ⟨true, true⟩,
         PEvent.switchMode ⟨true, true⟩ PlaybackMode.mse,
         PEvent.mseMime true, PEvent.mseChunk,
         PEvent.negotiationCatch "HTTP 500: Internal Server Error"]).error =
      some "HTTP 500: Internal Server Error" ∧
    (runEmits (initState PlaybackMode.webrtc)
        [PEvent.play ⟨true, true⟩,
         PEvent.switchMode ⟨true, true⟩ PlaybackMode.mse,
         PEvent.mseMime true, PEvent.mseChunk,
         PEvent.negotiationCatch "HTTP 500: Internal Server Error"]).count
      (EmitEvent.errorEvent "HTTP 500: Internal Server Error") = 1 := by
  refine ⟨rfl, rfl, rfl, rfl, rfl⟩

/-- C8 amended.  The code installs no liveness guard on async
continuations: the catch continuation of a (possibly long-discarded)
WebRTC negotiation mutates `error` and `isLoading` and emits an `error`
event from *every* state, in particular while a newer session is active;
`stop()` only nulls the resource handles, it does not neutralize pending
continuations. -/
theorem stale_continuation_unguarded (s : PlayerState) (msg : String) :
    (step s (PEvent.negotiationCatch msg)).1.error = some msg ∧
    (step s (PEvent.negotiationCatch msg)).1.isLoading = false ∧
    (step s (PEvent.negotiationCatch msg)).2 = [EmitEvent.errorEvent msg] := by
  refine ⟨rfl, rfl, rfl⟩

/-- C9 counterexample.  In an MSE session, when the server-announced MIME
type is not supported (`MediaSource.isTypeSupported` false) the handler's
`if` has no else-branch: nothing happens.  The failure is silent — `error`
stays `none` and `isLoading` stays `true` — contradicting "surfaces as a
non-null error with a descriptive message". -/
theorem unsupported_format_cex :
    (runState (initState PlaybackMode.mse)
        [PEvent.play ⟨true, true⟩, PEvent.mseMime false]).error = none ∧
    (runState (initState PlaybackMode.mse)
        [PEvent.play ⟨true, true⟩, PEvent.mseMime false]).isLoading = true := by
  refine ⟨rfl, rfl⟩

/-- C9 amended.  Lack of platform decode support is surfaced as a
descriptive non-null `error` only by the playlist (HLS) session: when
neither the HLS engine nor native playlist playback is available,
`startHLS` sets `error = "HLS is not supported in this browser"` and
clears `isLoading`.  The buffered-binary (MSE) session silently ignores an
unsupported MIME type: the state is completely unchanged and no event is
emitted. -/
theorem unsupported_format_amended (s : PlayerState) :
    (startSync ⟨false, false⟩ { s with currentMode := PlaybackMode.hls }).error =
      some "HLS is not supported in this browser" ∧
    (startSync ⟨false, false⟩
      { s with currentMode := PlaybackMode.hls }).isLoading = false ∧
    (step s (PEvent.mseMime false)).1 = s ∧
    (step s (PEvent.mseMime false)).2 = [] := by
  refine ⟨rfl, rfl, rfl, rfl⟩

/-! ### The WebRTC transport session (claim C7)

A per-session model of `startWebRTC`, keyed to the one asynchronous
decision point: the negotiation `POST /api/webrtc?src=...`.  Before the
answer is applied via `setRemoteDescription`, the peer connection has no
remote description, so the platform cannot reach the ICE `connected` /
`completed` states nor deliver remote tracks; the only callback that can
fire early is an ICE failure.  After a failed negotiation (non-2xx
response → `throw` → catch block) the remote description is never set, so
the same restriction applies to the whole rest of the session. -/

/-- Session-local events of one `startWebRTC` invocation. -/
inductive WEvent
  | negotiate (ok : Bool) (status : Nat)
  | iceConnected
  | iceFailed
  | track
deriving DecidableEq, Repr

/-- Session-local view of the state mutated by `startWebRTC`'s handlers,
with event counters for the session's `emit` calls. -/
structure WebrtcSession where
  remoteSet : Bool
  isLoading : Bool
  isPlaying : Bool
  error : Option String
  playingEvents : Nat
  errorEvents : Nat
deriving DecidableEq, Repr

/-- State at the top of `startWebRTC`: `isLoading = true`, `error = null`,
no remote description, nothing emitted yet. -/
def webrtcInit : WebrtcSession :=
  { remoteSet := false
    isLoading := true
    isPlaying := false
    error := none
    playingEvents := 0
    errorEvents := 0 }

/-- One session-local step, transcribed from `startWebRTC`: a 2xx
negotiation applies the answer; a non-2xx one throws
`HTTP ${status}: ...`, whose catch block sets `error`, emits `error` and
clears `isLoading`; ICE success sets loading/playing and emits `playing`;
ICE failure only sets `error`; `ontrack` only clears `isLoading`. -/
def wstep (s : WebrtcSession) : WEvent → WebrtcSession
  | WEvent.negotiate ok status =>
      if ok then { s with remoteSet := true }
      else
        { s with error := some ("HTTP " ++ toString status),
                 errorEvents := s.errorEvents + 1,
                 isLoading := false }
  | WEvent.iceConnected =>
      { s with isLoading := false, isPlaying := true,
               playingEvents := s.playingEvents + 1 }
  | WEvent.iceFailed => { s with error := some "WebRTC connection failed" }
  | WEvent.track => { s with isLoading := false }

/-- Run a session-local event sequence. -/
def wrun (s : WebrtcSession) : List WEvent → WebrtcSession
  | [] => s
  | e :: es => wrun (wstep s e) es

lemma wrun_append (s : WebrtcSession) (xs ys : List WEvent) :
    wrun s (xs ++ ys) = wrun (wrun s xs) ys := by
  induction xs generalizing s with
  | nil => rfl
  | cons e es ih => simpa [wrun] using ih (wstep s e)

/-- Runs consisting only of ICE-failure callbacks leave loading, playing
and both event counters unchanged, and keep `error` non-null if it was. -/
lemma wrun_iceFailed_only (evs : List WEvent)
    (h : ∀ e ∈ evs, e = WEvent.iceFailed) (s : WebrtcSession) :
    (wrun s evs).isLoading = s.isLoading ∧
    (wrun s evs).isPlaying = s.isPlaying ∧
    (wrun s evs).playingEvents = s.playingEvents ∧
    (wrun s evs).errorEvents = s.errorEvents ∧
    ((wrun s evs).error = s.error ∨
     (wrun s evs).error = some "WebRTC connection failed") := by
  induction evs generalizing s with
  | nil => exact ⟨rfl, rfl, rfl, rfl, Or.inl rfl⟩
  | cons e es ih =>
      have he : e = WEvent.iceFailed := h e (List.mem_cons_self e es)
      have hes : ∀ x ∈ es, x = WEvent.iceFailed := by
        intro x hx; exact h x (List.mem_cons_of_mem e hx)
      subst he
      obtain ⟨h1, h2, h3, h4, h5⟩ := ih hes (wstep s WEvent.iceFailed)
      refine ⟨?_, ?_, ?_, ?_, ?_⟩
      · simpa [wrun, wstep] using h1
      · simpa [wrun, wstep] using h2
      · simpa [wrun, wstep] using h3
      · simpa [wrun, wstep] using h4
      · simp only [wrun]
        right
        rcases h5 with h5 | h5
        · rw [h5]; rfl
        · exact h5

/-- C7.  Every WebRTC session whose negotiation POST returns a non-2xx
status ends in a fatal startup error: before the negotiation only ICE
failures can fire (no remote description yet) and likewise after the
failed negotiation, and the resulting session state has `isLoading =
false`, a non-null `error`, exactly one emitted `error` event and zero
emitted `playing` events. -/
theorem webrtc_non2xx_fatal (pre post : List WEvent) (status : Nat)
    (hpre : ∀ e ∈ pre, e = WEvent.iceFailed)
    (hpost : ∀ e ∈ post, e = WEvent.iceFailed) :
    (wrun webrtcInit (pre ++ [WEvent.negotiate false status] ++ post)).isLoading
        = false ∧
    (wrun webrtcInit (pre ++ [WEvent.negotiate false status] ++ post)).error
        ≠ none ∧
    (wrun webrtcInit (pre ++ [WEvent.negotiate false status] ++ post)).errorEvents
        = 1 ∧
    (wrun webrtcInit (pre ++ [WEvent.negotiate false status] ++ post)).playingEvents
        = 0 := by
  have h1 := wrun_iceFailed_only pre hpre webrtcInit
  set s1 := wrun webrtcInit pre with hs1
  have hmid : wrun webrtcInit
      (pre ++ [WEvent.negotiate false status] ++ post) =
      wrun (wstep s1 (WEvent.negotiate false status)) post := by
    rw [wrun_append, wrun_append]
    rfl
  have hneg : wstep s1 (WEvent.negotiate false status) =
      { s1 with error := some ("HTTP " ++ toString status),
                errorEvents := s1.errorEvents + 1,
                isLoading := false } := by
    simp [wstep]
  have h2 := wrun_iceFailed_only post hpost
      (wstep s1 (WEvent.negotiate false status))
  rw [hmid]
  rcases h1 with ⟨_, _, hpe1, hee1, _⟩
  rcases h2 with ⟨hl2, _, hpe2, hee2, herr2⟩
  refine ⟨?_, ?_, ?_, ?_⟩
  · rw [hl2, hneg]
  · rcases herr2 with herr | herr
    · rw [herr, hneg]; simp
    · rw [herr]; simp
  · rw [hee2, hneg]
    simp only [webrtcInit] at hee1
    simp [hee1]
  · rw [hpe2, hneg]
    simp only [webrtcInit] at hpe1
    simp [hpe1]

/-- C7 witness: a session whose POST returns HTTP 500, with one late ICE
failure afterwards, ends with `loading = false`, a non-null error, one
`error` event and zero `playing` events. -/
theorem webrtc_non2xx_fatal_witness :
    (∀ e ∈ ([] : List WEvent), e = WEvent.iceFailed) ∧
    (∀ e ∈ [WEvent.iceFailed], e = WEvent.iceFailed) ∧
    ((wrun webrtcInit
        ([] ++ [WEvent.negotiate false 500] ++ [WEvent.iceFailed])).isLoading
        = false ∧
     (wrun webrtcInit
        ([] ++ [WEvent.negotiate false 500] ++ [WEvent.iceFailed])).error
        ≠ none ∧
     (wrun webrtcInit
        ([] ++ [WEvent.negotiate false 500] ++ [WEvent.iceFailed])).errorEvents
        = 1 ∧
     (wrun webrtcInit
        ([] ++ [WEvent.negotiate false 500] ++ [WEvent.iceFailed])).playingEvents
        = 0) := by
  refine ⟨by decide, by decide, ?_⟩
  exact webrtc_non2xx_fatal [] [WEvent.iceFailed] 500 (by decide) (by decide)

/-! ### The buffered-binary (MSE) append discipline (claim C1)

Embedding of the `sourceopen` closure of `startMSE`, after the source
buffer has been negotiated (the claim's scope): the closure variables
`queue : ArrayBuffer[]` and `isUpdating : boolean`, the platform flag
`sourceBuffer.updating` (set by `appendBuffer`, cleared by the platform
immediately before it fires `updateend`), and the `onmessage` /
`updateend` handler bodies.  Chunks are identified by naturals; each
`appendBuffer` call is recorded together with the busy flag
(`isUpdating || sourceBuffer.updating`) observed at the call site. -/

/-- The mutable state of the negotiated MSE append loop. -/
structure MseBuf where
  queue : List Nat
  isUpdating : Bool
  sbUpdating : Bool
  appends : List (Nat × Bool)
deriving DecidableEq, Repr

/-- State right after `addSourceBuffer`: empty queue, idle buffer. -/
def mseInit : MseBuf :=
  { queue := [], isUpdating := false, sbUpdating := false, appends := [] }

/-- Events of the negotiated append loop: a binary WebSocket frame
arriving, or the source buffer firing `updateend`. -/
inductive MseEv
  | chunk (c : Nat)
  | updateend
deriving DecidableEq, Repr

/-- One atomic handler run.  A binary frame: if `!isUpdating &&
!sourceBuffer.updating`, append immediately (recording the busy flag seen
at the call) and set both flags; otherwise push onto the queue.  An
`updateend`: the platform has just cleared `sourceBuffer.updating`, the
handler sets `isUpdating = false`, then — the source's
`queue.length > 0 && sourceBuffer && !sourceBuffer.updating` guard — it
shifts the queue head and appends it, setting both flags again. -/
def mseStep (b : MseBuf) : MseEv → MseBuf
  | MseEv.chunk c =>
      if !b.isUpdating && !b.sbUpdating then
        { b with appends := b.appends ++ [(c, b.isUpdating || b.sbUpdating)],
                 isUpdating := true, sbUpdating := true }
      else { b with queue := b.queue ++ [c] }
  | MseEv.updateend =>
      let b1 : MseBuf := { b with sbUpdating := false, isUpdating := false }
      if !b1.queue.isEmpty && !b1.sbUpdating then
        { b1 with queue := b1.queue.tail,
                  appends := b1.appends ++
                    [(b1.queue.headD 0, b1.isUpdating || b1.sbUpdating)],
                  isUpdating := true, sbUpdating := true }
      else b1

/-- Run a sequence of append-loop events. -/
def mseRun (b : MseBuf) : List MseEv → MseBuf
  | [] => b
  | e :: es => mseRun (mseStep b e) es

/-- The binary chunks of an event sequence, in arrival order. -/
def arrivedChunks : List MseEv → List Nat
  | [] => []
  | MseEv.chunk c :: es => c :: arrivedChunks es
  | MseEv.updateend :: es => arrivedChunks es

/-- Well-formedness of an event sequence from a given buffer state:
`updateend` only fires while an append is outstanding (the platform fires
it exactly when an `appendBuffer` completes). -/
def wfFrom (b : MseBuf) : List MseEv → Bool
  | [] => true
  | MseEv.chunk c :: es => wfFrom (mseStep b (MseEv.chunk c)) es
  | MseEv.updateend :: es =>
      b.sbUpdating && wfFrom (mseStep b MseEv.updateend) es

/-- The append-loop invariant: every recorded append saw an idle buffer,
the local `isUpdating` mirror agrees with the platform flag, and a
non-empty queue implies an append is outstanding. -/
def MseInv (b : MseBuf) : Prop :=
  (∀ p ∈ b.appends, p.2 = false) ∧
  b.isUpdating = b.sbUpdating ∧
  (b.queue ≠ [] → b.sbUpdating = true)

lemma mseRun_append (b : MseBuf) (xs ys : List MseEv) :
    mseRun b (xs ++ ys) = mseRun (mseRun b xs) ys := by
  induction xs generalizing b with
  | nil => rfl
  | cons e es ih => simpa [mseRun] using ih (mseStep b e)

lemma mseStep_inv (b : MseBuf) (e : MseEv) (h : MseInv b) :
    MseInv (mseStep b e) := by
  obtain ⟨hap, hflag, hq⟩ := h
  cases e with
  | chunk c =>
      cases hu : b.isUpdating <;> cases hs : b.sbUpdating
      · refine ⟨?_, ?_, ?_⟩
        · intro p hp
          simp only [mseStep, hu, hs, Bool.not_false, Bool.and_self,
            if_pos, Bool.or_self] at hp
          rcases List.mem_append.mp hp with hp | hp
          · exact hap p hp
          · simp only [List.mem_singleton] at hp
            subst hp; rfl
        · simp [mseStep, hu, hs]
        · intro _; simp [mseStep, hu, hs]
      · rw [hu, hs] at hflag
        exact absurd hflag (by decide)
      · rw [hu, hs] at hflag
        exact absurd hflag (by decide)
      · refine ⟨?_, ?_, ?_⟩
        · intro p hp
          simp only [mseStep, hu, hs, Bool.not_true, Bool.false_and,
            if_neg, Bool.false_eq_true, not_false_iff] at hp
          exact hap p hp
        · simp [mseStep, hu, hs]
        · intro _; simp [mseStep, hu, hs]
  | updateend =>
      cases hqv : b.queue with
      | nil =>
          refine ⟨?_, ?_, ?_⟩
          · intro p hp
            simp only [mseStep, hqv] at hp
            simp only [List.isEmpty_nil, Bool.not_true, Bool.false_and,
              Bool.false_eq_true, not_false_iff, if_neg] at hp
            exact hap p hp
          · simp [mseStep, hqv]
          · intro hne
            exact absurd (by simp [mseStep, hqv]) hne
      | cons c rest =>
          refine ⟨?_, ?_, ?_⟩
          · intro p hp
            simp only [mseStep, hqv, List.isEmpty_cons, Bool.not_false,
              Bool.and_self, if_pos, List.headD_cons, Bool.or_self,
              List.tail_cons] at hp
            rcases List.mem_append.mp hp with hp | hp
            · exact hap p hp
            · simp only [List.mem_singleton] at hp
              subst hp; rfl
          · simp [mseStep, hqv]
          · intro _; simp [mseStep, hqv]

lemma mseRun_inv (evs : List MseEv) (b : MseBuf) (h : MseInv b) :
    MseInv (mseRun b evs) := by
  induction evs generalizing b with
  | nil => exact h
  | cons e es ih => exact ih _ (mseStep_inv b e h)

/-- Conservation: appended chunks followed by the queued chunks equal the
previously accounted chunks plus everything that has arrived since. -/
lemma mseRun_conservation (evs : List MseEv) (b : MseBuf) (h : MseInv b) :
    (mseRun b evs).appends.map Prod.fst ++ (mseRun b evs).queue =
      (b.appends.map Prod.fst ++ b.queue) ++ arrivedChunks evs := by
  induction evs generalizing b with
  | nil => simp [mseRun, arrivedChunks]
  | cons e es ih =>
      obtain ⟨hap, hflag, hq⟩ := h
      have hrec := ih (mseStep b e) (mseStep_inv b e ⟨hap, hflag, hq⟩)
      show (mseRun (mseStep b e) es).appends.map Prod.fst ++
          (mseRun (mseStep b e) es).queue = _
      rw [hrec]
      cases e with
      | chunk c =>
          cases hu : b.isUpdating <;> cases hs : b.sbUpdating
          · have hqe : b.queue = [] := by
              by_contra hne
              have := hq hne
              rw [hs] at this
              exact absurd this (by decide)
            simp [mseStep, hu, hs, hqe, arrivedChunks]
          · simp [mseStep, hu, hs, arrivedChunks]
          · rw [hu, hs] at hflag
            exact absurd hflag (by decide)
          · simp [mseStep, hu, hs, arrivedChunks]
      | updateend =>
          cases hqv : b.queue with
          | nil => simp [mseStep, hqv, arrivedChunks]
          | cons c rest => simp [mseStep, hqv, arrivedChunks]

/-- Draining: from any invariant state, firing `updateend` exactly
`queue.length + (1 if an append is outstanding)` times empties the queue,
appends exactly the queued chunks in order, and every one of those
`updateend` firings is well-formed. -/
lemma mse_drain (n : Nat) :
    ∀ b : MseBuf, MseInv b →
      b.queue.length + (if b.sbUpdating then 1 else 0) = n →
      (mseRun b (List.replicate n MseEv.updateend)).queue = [] ∧
      (mseRun b (List.replicate n MseEv.updateend)).appends.map Prod.fst =
        b.appends.map Prod.fst ++ b.queue ∧
      wfFrom b (List.replicate n MseEv.updateend) = true := by
  induction n with
  | zero =>
      intro b _ hn
      have hq : b.queue = [] := by
        cases hql : b.queue with
        | nil => rfl
        | cons c rest => rw [hql] at hn; simp at hn
      refine ⟨?_, ?_, ?_⟩
      · simpa [mseRun, List.replicate] using hq
      · simp [mseRun, List.replicate, hq]
      · simp [wfFrom, List.replicate]
  | succ m ih =>
      intro b hinv hn
      obtain ⟨hap, hflag, hq⟩ := hinv
      have hsb : b.sbUpdating = true := by
        cases hv : b.sbUpdating
        · have hqe : b.queue = [] := by
            by_contra hqe
            have := hq hqe
            rw [hv] at this
            exact absurd this (by decide)
          rw [hqe, hv] at hn
          simp at hn
        · rfl
      have hinv' : MseInv (mseStep b MseEv.updateend) :=
        mseStep_inv b MseEv.updateend ⟨hap, hflag, hq⟩
      have hrep : List.replicate (m + 1) MseEv.updateend =
          MseEv.updateend :: List.replicate m MseEv.updateend := rfl
      cases hqv : b.queue with
      | nil =>
          have hm : m = 0 := by
            rw [hqv, hsb] at hn
            simpa using hn.symm
          have hcount : (mseStep b MseEv.updateend).queue.length +
              (if (mseStep b MseEv.updateend).sbUpdating then 1 else 0) = m := by
            rw [hm]
            simp [mseStep, hqv]
          obtain ⟨d1, d2, d3⟩ := ih (mseStep b MseEv.updateend) hinv' hcount
          refine ⟨?_, ?_, ?_⟩
          · rw [hrep]
            exact d1
          · rw [hrep]
            show (mseRun (mseStep b MseEv.updateend)
              (List.replicate m MseEv.updateend)).appends.map Prod.fst = _
            rw [d2]
            simp [mseStep, hqv]
          · rw [hrep]
            simp only [wfFrom, hsb, Bool.true_and]
            exact d3
      | cons c rest =>
          have hcount : (mseStep b MseEv.updateend).queue.length +
              (if (mseStep b MseEv.updateend).sbUpdating then 1 else 0) = m := by
            have hlen : b.queue.length = rest.length + 1 := by simp [hqv]
            have hstep1 : (mseStep b MseEv.updateend).queue = rest := by
              simp [mseStep, hqv]
            have hstep2 : (mseStep b MseEv.updateend).sbUpdating = true := by
              simp [mseStep, hqv]
            rw [hlen, hsb] at hn
            rw [hstep1, hstep2]
            simp only [if_true] at hn ⊢
            omega
          obtain ⟨d1, d2, d3⟩ := ih (mseStep b MseEv.updateend) hinv' hcount
          refine ⟨?_, ?_, ?_⟩
          · rw [hrep]
            exact d1
          · rw [hrep]
            show (mseRun (mseStep b MseEv.updateend)
              (List.replicate m MseEv.updateend)).appends.map Prod.fst = _
            rw [d2]
            simp [mseStep, hqv]
          · rw [hrep]
            simp only [wfFrom, hsb, Bool.true_and]
            exact d3

/-- C1.  For every sequence of events after the source buffer is
negotiated: (1) `appendBuffer` is never invoked while the underlying
buffer reports busy — every recorded append saw
`isUpdating || sourceBuffer.updating = false`; (2) no chunk is dropped,
duplicated or reordered — the appended chunks followed by the still
queued ones are exactly the arrived chunks in arrival order; (3) every
chunk is eventually appended — after finitely many further (well-formed)
`updateend` firings the queue is empty and the append sequence equals the
arrival sequence. -/
theorem mse_fifo_backpressure (evs : List MseEv) :
    ((mseRun mseInit evs).appends.all (fun p => !p.2)) = true ∧
    (mseRun mseInit evs).appends.map Prod.fst ++ (mseRun mseInit evs).queue =
      arrivedChunks evs ∧
    ∃ k,
      (mseRun mseInit (evs ++ List.replicate k MseEv.updateend)).queue = [] ∧
      (mseRun mseInit
          (evs ++ List.replicate k MseEv.updateend)).appends.map Prod.fst =
        arrivedChunks evs ∧
      wfFrom (mseRun mseInit evs) (List.replicate k MseEv.updateend) = true := by
  have hinv0 : MseInv mseInit := by
    refine ⟨?_, rfl, ?_⟩
    · intro p hp
      simp [mseInit] at hp
    · intro h
      exact absurd rfl h
  have hinv : MseInv (mseRun mseInit evs) := mseRun_inv evs mseInit hinv0
  have hcons := mseRun_conservation evs mseInit hinv0
  refine ⟨?_, ?_, ?_⟩
  · rw [List.all_eq_true]
    intro p hp
    have := hinv.1 p hp
    simp [this]
  · simpa [mseInit] using hcons
  · obtain ⟨d1, d2, d3⟩ := mse_drain
      ((mseRun mseInit evs).queue.length +
        (if (mseRun mseInit evs).sbUpdating then 1 else 0))
      (mseRun mseInit evs) hinv rfl
    refine ⟨_, ?_, ?_, d3⟩
    · rw [mseRun_append]
      exact d1
    · rw [mseRun_append, d2]
      simpa [mseInit] using hcons

/-! ### The PTZ continuous command dispatcher (claim C10)

Embedding of the Tapo control panel's `ptzDirections`, `startPtz` and
`stopPtz` (`src/unnamed/part_001`, top component): `startPtz(direction)`
calls `sendPtzStep(direction)` once immediately and then registers
`window.setInterval(() => sendPtzStep(direction), 150)`; `stopPtz()`
(press-end) clears the interval.  `sendPtzStep` returns without dispatch
when the device-control API is not configured (`if (!api.value) return`),
and otherwise issues `api.ptzStep(cameraIp, ptzDirections[direction])`.
We model time in milliseconds: an interval with period `p` registered at
press-start fires at `p, 2p, 3p, ...`; `stopPtz` at `holdMs` cancels it,
so exactly the ticks strictly below `holdMs` fire. -/

/-- The eight compass directions of the Tapo PTZ pad. -/
inductive PtzDirection
  | up
  | right
  | down
  | left
  | upLeft
  | upRight
  | downLeft
  | downRight
deriving DecidableEq, Repr

/-- The `ptzDirections` degree map of the source. -/
def ptzDirections : PtzDirection → Nat
  | PtzDirection.up => 0
  | PtzDirection.right => 90
  | PtzDirection.down => 180
  | PtzDirection.left => 270
  | PtzDirection.upLeft => 315
  | PtzDirection.upRight => 45
  | PtzDirection.downLeft => 225
  | PtzDirection.downRight => 135

/-- The repeat period hard-coded in the Tapo control panel's `startPtz`. -/
def tapoPtzIntervalMs : Nat := 150

/-- The repeat period hard-coded in the video player's `startPtz`. -/
def videoPlayerPtzIntervalMs : Nat := 200

/-- Firing times of a `setInterval(f, period)` registered at time 0 and
cancelled at time `holdMs`: every positive multiple of `period` strictly
below `holdMs`. -/
def intervalTicks (period holdMs : Nat) : List Nat :=
  (List.range ((holdMs - 1) / period)).map (fun k => (k + 1) * period)

/-- The dispatches of one press-and-hold gesture on the Tapo panel:
time-stamped degree payloads of the `api.ptzStep` calls — one immediate
dispatch at press-start, then one per interval tick, all carrying
`ptzDirections[direction]`; none at all when the API is unconfigured. -/
def tapoStartPtz (configured : Bool) (d : PtzDirection) (holdMs : Nat) :
    List (Nat × Nat) :=
  if configured then
    (0, ptzDirections d) ::
      (intervalTicks tapoPtzIntervalMs holdMs).map
        (fun t => (t, ptzDirections d))
  else []

lemma intervalTicks_mem (period holdMs t : Nat)
    (h : t ∈ intervalTicks period holdMs) : 0 < t ∧ t < holdMs := by
  unfold intervalTicks at h
  rcases List.mem_map.mp h with ⟨k, hk, hkt⟩
  rcases List.mem_range.mp hk with hklt
  have hper : 0 < period := by
    by_contra hp
    have : period = 0 := by omega
    rw [this] at hklt
    simp at hklt
  constructor
  · rw [← hkt]
    positivity
  · have hk1 : k + 1 ≤ (holdMs - 1) / period := hklt
    have hmul : (k + 1) * period ≤ (holdMs - 1) / period * period :=
      Nat.mul_le_mul_right period hk1
    have hdiv : (holdMs - 1) / period * period ≤ holdMs - 1 :=
      Nat.div_mul_le_self (holdMs - 1) period
    have hpos : 1 ≤ holdMs := by
      by_contra hh
      have : holdMs = 0 := by omega
      rw [this] at hklt
      simp at hklt
    omega

/-- C10.  Press-and-hold PTZ: with the device-control API configured, one
command is dispatched immediately at press-start (time 0) and re-dispatched
at every 150 ms interval tick until press-end cancels the interval (all
ticks are strictly between 0 and the hold duration); holding any direction
for 500 ms dispatches exactly 4 requests, at 0/150/300/450 ms, each carrying
`ptzDirections[direction]`; and the direction-to-degree map is up→0,
right→90, down→180, left→270, upRight→45, downRight→135, downLeft→225,
upLeft→315. -/
theorem ptz_press_hold_repeat :
    (∀ d : PtzDirection,
      (tapoStartPtz true d 500).map Prod.fst = [0, 150, 300, 450] ∧
      (tapoStartPtz true d 500).map Prod.snd =
        List.replicate 4 (ptzDirections d) ∧
      (tapoStartPtz true d 500).length = 4) ∧
    ptzDirections PtzDirection.up = 0 ∧
    ptzDirections PtzDirection.right = 90 ∧
    ptzDirections PtzDirection.down = 180 ∧
    ptzDirections PtzDirection.left = 270 ∧
    ptzDirections PtzDirection.upRight = 45 ∧
    ptzDirections PtzDirection.downRight = 135 ∧
    ptzDirections PtzDirection.downLeft = 225 ∧
    ptzDirections PtzDirection.upLeft = 315 ∧
    tapoPtzIntervalMs = 150 ∧
    (∀ d holdMs,
      (tapoStartPtz true d holdMs).map Prod.fst =
        0 :: intervalTicks tapoPtzIntervalMs holdMs) ∧
    (∀ holdMs t, t ∈ intervalTicks tapoPtzIntervalMs holdMs →
      0 < t ∧ t < holdMs) := by
  refine ⟨?_, rfl, rfl, rfl, rfl, rfl, rfl, rfl, rfl, rfl, ?_, ?_⟩
  · intro d
    cases d <;> exact ⟨by decide, by decide, by decide⟩
  · intro d holdMs
    simp only [tapoStartPtz, if_true, List.map_cons, List.map_map]
    congr 1
    have hid : (Prod.fst ∘ fun t : Nat => (t, ptzDirections d)) = id := rfl
    rw [hid, List.map_id]
  · intro holdMs t ht
    exact intervalTicks_mem tapoPtzIntervalMs holdMs t ht

/-- C10 witness: the interval ticks of a 500 ms hold at the Tapo panel's
150 ms period are 150, 300 and 450, and each lies strictly between 0 and
the hold duration. -/
theorem ptz_press_hold_repeat_witness :
    intervalTicks tapoPtzIntervalMs 500 = [150, 300, 450] ∧
    (150 ∈ intervalTicks tapoPtzIntervalMs 500) ∧
    (0 < 150 ∧ 150 < 500) := by
  refine ⟨by decide, by decide, ?_⟩
  exact ptz_press_hold_repeat.2.2.2.2.2.2.2.2.2.2.2 500 150 (by decide)

end Go2rtcPlayer
